import Mathlib

/-!
Verification development for the mlflow-cli repository.

The Go sources are shallowly embedded:
* `time.Time` values are modelled as `Int` nanoseconds since an epoch;
  `time.Duration` is `Int` nanoseconds.  `t.Truncate(d)` rounds down to a
  multiple of `d`, which for positive `d` is `t - t % d` with Euclidean
  remainder.
* `float64` metric values are modelled as `Int`: the normalizer only copies
  them and compares them with zero, never performs float arithmetic.
* fallible Go functions returning `(T, error)` become `Except String T`.
* calls to `time.Now()` are made explicit: the caller passes the instant the
  k-th iteration would observe.
-/

namespace MlflowCli

/-- Model of `models.MetricPoint` (internal/models/metrics.go). -/
structure MetricPoint where
  Timestamp : Option Int
  Step : Option Int
  ExecutionTime : Int
  SuccessRate : Int
  ErrorCount : Int
deriving DecidableEq, Repr

/-- Model of `models.Metric` (internal/models/metrics.go). -/
structure Metric where
  Key : String
  Value : Int
  Timestamp : Int
  Step : Int
deriving DecidableEq, Repr

/-- Model of `models.TimeConfig` (internal/models/metrics.go). -/
structure TimeConfig where
  Resolution : String
  Alignment : String
  StepMode : String
deriving DecidableEq, Repr

/-- The resolution switch of `AlignTimestamp` (internal/time/utils.go,
lines 14-23): maps a resolution string to a duration in nanoseconds. -/
def durationOf (resolution : String) : Except String Int :=
  match resolution with
  | "1m" => .ok 60000000000
  | "5m" => .ok 300000000000
  | "1h" => .ok 3600000000000
  | _ => .error ("unsupported resolution: " ++ resolution)

/-- Go `t.Truncate(d)` for a positive duration: round `t` down to the
nearest multiple of `d`. -/
def goTruncate (t d : Int) : Int := t - t % d

/-- Model of `timeutils.AlignTimestamp` (internal/time/utils.go, lines
11-45).  `t.After(aligned)` is `aligned < t`; `t.Sub(aligned) >= half`
with `half := duration / 2` is `duration / 2 <= t - aligned`. -/
def AlignTimestamp (t : Int) (resolution alignment : String) : Except String Int :=
  match durationOf resolution with
  | .error e => .error e
  | .ok duration =>
    let aligned := goTruncate t duration
    match alignment with
    | "floor" => .ok aligned
    | "ceil" => if aligned < t then .ok (aligned + duration) else .ok aligned
    | "round" => if duration / 2 ≤ t - aligned then .ok (aligned + duration) else .ok aligned
    | _ => .error ("unsupported alignment: " ++ alignment)

/-- Model of `int64(timestamp.Sub(base).Minutes())` (internal/time/utils.go, lines
82 and 87): whole minutes between two instants, truncated toward zero.
The float64 division performed by Go is modelled as exact division of the
nanosecond difference. -/
def goMinutes (d : Int) : Int := Int.tdiv d 60000000000

/-- Field expansion of one point (internal/time/utils.go, lines 94-119):
`execution_time` and `success_rate` only when non-zero, `error_count`
always. -/
def expandPoint (point : MetricPoint) (timestamp step : Int) : List Metric :=
  (if point.ExecutionTime ≠ 0 then
    [{ Key := "execution_time", Value := point.ExecutionTime,
       Timestamp := timestamp, Step := step }] else []) ++
  (if point.SuccessRate ≠ 0 then
    [{ Key := "success_rate", Value := point.SuccessRate,
       Timestamp := timestamp, Step := step }] else []) ++
  [{ Key := "error_count", Value := point.ErrorCount,
     Timestamp := timestamp, Step := step }]

/-- Timestamp determination for one point (internal/time/utils.go, lines
64-73).  `now` is the instant `time.Now()` would return for this point. -/
def pointTimestamp (point : MetricPoint) (config : TimeConfig) (now : Int) :
    Except String Int :=
  match point.Timestamp with
  | some t => AlignTimestamp t config.Resolution config.Alignment
  | none => .ok now

/-- Step determination for one point (internal/time/utils.go, lines
75-92).  `count` is `len(result)`, the number of metrics already emitted;
the Go `var step int64` zero default covers an unrecognized step mode. -/
def pointStep (point : MetricPoint) (config : TimeConfig) (base timestamp : Int)
    (count : Nat) : Int :=
  match point.Step with
  | some s => s
  | none =>
    match config.StepMode with
    | "timestamp" => goMinutes (timestamp - base)
    | "sequence" => (count : Int)
    | "auto" =>
      match point.Timestamp with
      | some _ => goMinutes (timestamp - base)
      | none => (count : Int)
    | _ => 0

/-- The per-point loop of `ProcessMetrics` (internal/time/utils.go, lines
60-120).  `i` is the index of the current point (used to address its
`time.Now()` observation in `nowAt`), `acc` is `result` so far; an
alignment error aborts the whole call with no partial output. -/
def processLoop (config : TimeConfig) (base : Int) (nowAt : Nat → Int) :
    List MetricPoint → Nat → List Metric → Except String (List Metric)
  | [], _, acc => .ok acc
  | point :: rest, i, acc =>
    match pointTimestamp point config (nowAt i) with
    | .error e => .error e
    | .ok ts =>
      processLoop config base nowAt rest (i + 1)
        (acc ++ expandPoint point ts (pointStep point config base ts acc.length))

/-- Base-time selection of `ProcessMetrics` (internal/time/utils.go, lines
50-58): explicit base time, else the timestamp of the first point, else the
current instant `now0`. -/
def baseOf (metrics : List MetricPoint) (baseTime : Option Int) (now0 : Int) : Int :=
  match baseTime with
  | some b => b
  | none =>
    match metrics with
    | point :: _ =>
      match point.Timestamp with
      | some t => t
      | none => now0
    | [] => now0

/-- Model of `timeutils.ProcessMetrics` (internal/time/utils.go, lines
48-123).  `now0` is the instant `time.Now()` would return for the base
time fallback and `nowAt k` the instant observed by the k-th point. -/
def ProcessMetrics (metrics : List MetricPoint) (config : TimeConfig)
    (baseTime : Option Int) (now0 : Int) (nowAt : Nat → Int) :
    Except String (List Metric) :=
  processLoop config (baseOf metrics baseTime now0) nowAt metrics 0 []

/-- A constant clock used to instantiate the `time.Now()` observations on
concrete inputs. -/
def zeroClock : Nat → Int := fun _ => 0

/-! ## Run update (internal/mlflow/run.go, UpdateRun) -/

/-- The request `UpdateRun` hands to the tracking service: the fields of
`ml.UpdateRun` that the function assigns.  `EndTime = none` models the
field never being assigned. -/
structure UpdateRunGoRequest where
  RunId : String
  Status : String
  EndTime : Option Int
deriving DecidableEq, Repr

/-- Model of `Client.UpdateRun` request construction (internal/mlflow/run.go,
lines 82-107): the status switch with its `FINISHED` default, and the end
time set only for the three terminal statuses.  `now` is the instant
`time.Now().UnixMilli()` would return. -/
def UpdateRun (runID status : String) (now : Int) : UpdateRunGoRequest :=
  let mlStatus :=
    match status with
    | "RUNNING" => "RUNNING"
    | "FINISHED" => "FINISHED"
    | "FAILED" => "FAILED"
    | "KILLED" => "KILLED"
    | _ => "FINISHED"
  let endTime :=
    if status = "FINISHED" ∨ status = "FAILED" ∨ status = "KILLED" then
      some now
    else
      none
  { RunId := runID, Status := mlStatus, EndTime := endTime }

/-! ## Signed-URI request construction (internal/mlflow/run.go) -/

/-- Model of `HTTPHeader` (internal/mlflow/run.go, lines 190-193). -/
structure HTTPHeader where
  Name : String
  Value : String
deriving DecidableEq, Repr

/-- Model of `ArtifactCredentialInfo` (internal/mlflow/run.go, lines
181-187); the Go field `Type` is called `CredentialType` here. -/
structure ArtifactCredentialInfo where
  RunID : String
  Path : String
  SignedURI : String
  Headers : List HTTPHeader
  CredentialType : String
deriving DecidableEq, Repr

/-- Model of `textproto.validHeaderFieldByte`: RFC 7230 token characters. -/
def isTokenChar (c : Char) : Bool :=
  c.isAlpha || c.isDigit || c = '!' || c = '#' || c = '$' || c = '%' ||
  c = '&' || c = '*' || c = '+' || c = '-' || c = '.' || c = '^' ||
  c = '_' || c = '|' || c = '~' || c.toNat = 39 || c.toNat = 96

/-- The case-folding loop of `textproto.CanonicalMIMEHeaderKey`: uppercase
at the start and after a hyphen, lowercase elsewhere. -/
def canonChars : Bool → List Char → List Char
  | _, [] => []
  | upper, c :: rest =>
    let c2 := if upper then c.toUpper else c.toLower
    c2 :: canonChars (c2 = '-') rest

/-- Model of `textproto.CanonicalMIMEHeaderKey`, used by `http.Header.Set` and
`http.Header.Del`: canonicalize when every character is a token character,
otherwise return the key unchanged. -/
def canonicalMIMEHeaderKey (s : String) : String :=
  let cs := s.toList
  if cs.all isTokenChar then String.mk (canonChars true cs) else s

/-- Go `http.Header` modelled as a lookup map from canonical keys to the
single value `Set` leaves in place. -/
def HeaderMap : Type := String → Option String

/-- Model of `http.Header.Set`: replace the value stored under the canonical key. -/
def headerSet (h : HeaderMap) (key value : String) : HeaderMap :=
  fun q => if q = canonicalMIMEHeaderKey key then some value else h q

/-- Model of `http.Header.Del`: remove the value stored under the canonical key. -/
def headerDel (h : HeaderMap) (key : String) : HeaderMap :=
  fun q => if q = canonicalMIMEHeaderKey key then none else h q

/-- The header map of a request fresh from `http.NewRequestWithContext`. -/
def emptyHeader : HeaderMap := fun _ => none

/-- The default headers `createSignedURIRequest` installs before the
custom headers of the credential (internal/mlflow/run.go, lines 546-570): the
explicit `Content-Length`, then the credential-type switch with its
octet-stream fallback. -/
def signedURIDefaultHeaders (credentialType : String) (contentLength : Int) :
    HeaderMap :=
  let h0 := headerSet emptyHeader ("Content-Length") (toString contentLength)
  match credentialType with
  | "AWS_PRESIGNED_URL" =>
    headerDel (headerSet h0 ("Content-Type") ("application/octet-stream"))
      ("Transfer-Encoding")
  | "AZURE_SAS_URI" =>
    headerSet (headerSet h0 ("Content-Type") ("application/octet-stream"))
      ("x-ms-blob-type") ("BlockBlob")
  | "GCP_SIGNED_URL" =>
    headerSet h0 ("Content-Type") ("application/octet-stream")
  | "AZURE_ADLS_GEN2_SAS_URI" =>
    headerSet h0 ("Content-Type") ("application/octet-stream")
  | _ =>
    headerSet h0 ("Content-Type") ("application/octet-stream")

/-- The request produced by `createSignedURIRequest`. -/
structure SignedURIRequest where
  Method : String
  URL : String
  ContentLength : Int
  Headers : HeaderMap

/-- Model of `Client.createSignedURIRequest` (internal/mlflow/run.go,
lines 540-578): a PUT to the signed URI with explicit content length,
type-specific default headers, then every credential-supplied custom
header applied with `Set`. -/
def createSignedURIRequest (credential : ArtifactCredentialInfo)
    (contentLength : Int) : SignedURIRequest :=
  { Method := "PUT"
    URL := credential.SignedURI
    ContentLength := contentLength
    Headers :=
      credential.Headers.foldl (fun h p => headerSet h p.Name p.Value)
        (signedURIDefaultHeaders credential.CredentialType contentLength) }

/-- The value of the last custom header whose canonical name is `q`
(custom headers are applied in order with `Set`, so the last wins). -/
def lastCustomHeader : List HTTPHeader → String → Option String
  | [], _ => none
  | p :: rest, q =>
    match lastCustomHeader rest q with
    | some v => some v
    | none =>
      if q = canonicalMIMEHeaderKey p.Name then some p.Value else none

/-! ## Artifact URI handling (internal/mlflow/run.go, internal/mlflow/artifact.go)

Go strings manipulated by index and split are modelled as `List Char`. -/

/-- Go strings, as character lists. -/
abbrev Str : Type := List Char

/-- Go `strings.HasPrefix pre s` by direct character comparison. -/
def strHasPre : Str → Str → Bool
  | [], _ => true
  | _ :: _, ([] : List Char) => false
  | p :: ps, c :: cs => if p = c then strHasPre ps cs else false

/-- Go `strings.TrimPrefix`: drop `pre` when it is a prefix, else return the
string unchanged. -/
def goTrimPre (pre s : Str) : Str :=
  if strHasPre pre s then List.drop (List.length (pre : List Char)) s else s

/-- Go `strings.Split s "/"` for the one-character separator: always returns
at least one (possibly empty) segment. -/
def splitOnSlash : Str → List Str
  | ([] : List Char) => [([] : List Char)]
  | c :: rest =>
    if c = '/' then ([] : List Char) :: splitOnSlash rest
    else
      match splitOnSlash rest with
      | s :: ss => ((c :: s : List Char) : Str) :: ss
      | [] => [([c] : List Char)]

/-- Model of `Client.extractIDsFromArtifactURI` (internal/mlflow/run.go,
lines 404-426, identical in internal/mlflow/artifact.go, lines 224-245):
strip the `mlflow-artifacts:` scheme, split on `/`, drop a leading empty
segment when more than three segments remain, and return the first two
segments as (experimentID, runID). -/
def extractIDsFromArtifactURI (artifactURI : Str) : Except String (Str × Str) :=
  let parts :=
    splitOnSlash (goTrimPre (("mlflow-artifacts:").toList) artifactURI)
  if parts.length < 3 then .error ("invalid mlflow-artifacts URI format")
  else
    let parts2 :=
      if parts.headD ([] : List Char) = ([] : List Char) ∧ parts.length > 3 then
        parts.drop 1
      else parts
    if parts2.length < 3 then .error ("invalid mlflow-artifacts URI format")
    else .ok (parts2.headD ([] : List Char), (parts2.drop 1).headD ([] : List Char))

/-- The dispatch decision of `Client.uploadToStorage`. -/
inductive StorageRoute where
  | mlflowArtifacts
  | dbfs
  | localFS
  | unsupported
deriving DecidableEq, Repr

/-- Model of the routing chain of `Client.uploadToStorage`
(internal/mlflow/run.go, lines 314-325): prefix checks in source order,
with an unsupported-scheme error for everything else. -/
def uploadToStorage (artifactURI : Str) : StorageRoute :=
  if strHasPre (("mlflow-artifacts:/").toList) artifactURI then .mlflowArtifacts
  else if strHasPre (("dbfs:/").toList) artifactURI then .dbfs
  else if strHasPre (("file://").toList) artifactURI ||
      strHasPre (("/").toList) artifactURI then .localFS
  else .unsupported

/-- The namespace under which DBFS artifact URIs embed their identifiers. -/
def dbfsTrackingPre : Str := ("dbfs:/databricks/mlflow-tracking/").toList

/-- Model of `Client.extractRunIDFromDBFSURI` (internal/mlflow/run.go,
lines 468-490). -/
def extractRunIDFromDBFSURI (artifactURI : Str) : Except String Str :=
  if ¬ (strHasPre dbfsTrackingPre artifactURI = true) then
    .error ("invalid DBFS artifact URI format")
  else
    let path := goTrimPre dbfsTrackingPre artifactURI
    let parts := splitOnSlash path
    if parts.length < 2 then .error ("invalid DBFS artifact URI format")
    else
      let runID := (parts.drop 1).headD ([] : List Char)
      if runID = ([] : List Char) then .error ("run ID not found in DBFS URI")
      else .ok runID

/-- The externally observable effects `uploadToDBFS` can perform, in
order: a credentials-for-write request, then a byte transfer to the
signed URI. -/
inductive DBFSEffect where
  | credRequest (runID : Str) (paths : List Str)
  | transfer (signedURI : String)
deriving DecidableEq, Repr

/-- Model of `Client.uploadToDBFS` (internal/mlflow/run.go, lines
441-466).  The credential broker and the signed-URI transfer are passed
in as oracles; the first component of the result is the trace of effects
actually attempted. -/
def uploadToDBFS (artifactURI : Str)
    (getCreds : Str → List Str → Except String (List ArtifactCredentialInfo))
    (send : ArtifactCredentialInfo → Except String Unit)
    (artifactPath : Str) : List DBFSEffect × Except String Unit :=
  match extractRunIDFromDBFSURI artifactURI with
  | .error e => ([], .error ("failed to extract run ID from DBFS URI: " ++ e))
  | .ok runID =>
    match getCreds runID [artifactPath] with
    | .error e =>
      ([.credRequest runID [artifactPath]],
       .error ("failed to get write credentials: " ++ e))
    | .ok creds =>
      match creds with
      | [] =>
        ([.credRequest runID [artifactPath]],
         .error ("no credentials returned for path"))
      | c :: _ =>
        match send c with
        | .error e =>
          ([.credRequest runID [artifactPath], .transfer c.SignedURI],
           .error ("failed to upload to " ++ c.CredentialType ++
             " signed URI: " ++ e))
        | .ok _ =>
          ([.credRequest runID [artifactPath], .transfer c.SignedURI], .ok ())

/-! ## Multi-file artifact upload (cmd log artifact, `logArtifact`) -/

/-- Go `filepath.Base`: empty path gives a dot, trailing separators are
dropped, then everything after the last separator; an all-separator path
gives the separator. -/
def filepathBase (path : Str) : Str :=
  if path = ([] : List Char) then ([ '.' ] : List Char)
  else
    let p : List Char := (List.dropWhile (fun c => c = '/') (path : List Char).reverse).reverse
    let b : List Char := (List.takeWhile (fun c => c ≠ '/') p.reverse).reverse
    if b = ([] : List Char) then ([ '/' ] : List Char) else b

/-- The per-file loop body of `logArtifact`: accumulated success count and
per-file error messages. -/
def logArtifactStep (artifactPath : Str) (statExists : Str → Bool)
    (upload : Str → Str → Option String) (acc : Nat × List String)
    (filePath : Str) : Nat × List String :=
  if ¬ statExists filePath then
    (acc.1, acc.2 ++ [("File not found: ") ++ String.mk filePath])
  else
    let targetPath :=
      if artifactPath ≠ ([] : List Char) then artifactPath else filepathBase filePath
    match upload filePath targetPath with
    | some e =>
      (acc.1, acc.2 ++ [("Failed to upload ") ++ String.mk filePath ++ (": ") ++ e])
    | none => (acc.1 + 1, acc.2)

/-- Model of the `logArtifact` command handler (cmd log artifact source,
lines 148-212): flag validation, the continue-on-error per-file loop over
`os.Stat` and `Client.UploadArtifact` (both passed as oracles), and the
all-failed check.  On success it returns the success count and the
per-file error messages written to stderr. -/
def logArtifact (files : List Str) (artifactPath : Str)
    (statExists : Str → Bool) (upload : Str → Str → Option String) :
    Except String (Nat × List String) :=
  if files.length = 0 then .error ("at least one file must be specified")
  else if files.length > 1 ∧ artifactPath ≠ ([] : List Char) then
    .error ("--artifact-path can only be used when uploading a single file")
  else
    let r := files.foldl (logArtifactStep artifactPath statExists upload) (0, [])
    if r.1 = 0 then .error ("failed to upload any artifacts")
    else .ok r

/-- The per-file success predicate of the multi-file (empty artifact
path) upload: the file exists and its upload succeeds. -/
def fileUploadOK (statExists : Str → Bool) (upload : Str → Str → Option String)
    (f : Str) : Bool :=
  statExists f && (upload f (filepathBase f)).isNone

/-- The per-file error message a failing file contributes to the list. -/
def fileErrMsg (statExists : Str → Bool) (upload : Str → Str → Option String)
    (f : Str) : Option String :=
  if ¬ statExists f then some (("File not found: ") ++ String.mk f)
  else
    match upload f (filepathBase f) with
    | some e => some (("Failed to upload ") ++ String.mk f ++ (": ") ++ e)
    | none => none

/-! ## Theorems -/

theorem goTruncate_le (t d : Int) (hd : 0 < d) : goTruncate t d ≤ t := by
  have h := Int.emod_nonneg t (by omega : d ≠ 0)
  simp only [goTruncate]
  omega

theorem sub_goTruncate_lt (t d : Int) (hd : 0 < d) : t - goTruncate t d < d := by
  have h := Int.emod_lt_of_pos t hd
  simp only [goTruncate]
  omega

theorem alignTimestamp_eval (t d : Int) (r : String) (hd : durationOf r = .ok d)
    (hpos : 0 < d) :
    AlignTimestamp t r ("floor") = .ok (goTruncate t d) ∧
    AlignTimestamp t r ("ceil") =
      .ok (if goTruncate t d = t then goTruncate t d else goTruncate t d + d) ∧
    AlignTimestamp t r ("round") =
      .ok (if d / 2 ≤ t - goTruncate t d then goTruncate t d + d
        else goTruncate t d) := by
  have hle := goTruncate_le t d hpos
  refine ⟨?_, ?_, ?_⟩
  · unfold AlignTimestamp
    rw [hd]
    try rfl
  · unfold AlignTimestamp
    rw [hd]
    show (if goTruncate t d < t then Except.ok (goTruncate t d + d)
      else Except.ok (goTruncate t d)) = _
    by_cases h : goTruncate t d = t
    · simp [h]
    · have hlt : goTruncate t d < t := lt_of_le_of_ne hle h
      simp [h, hlt]
  · unfold AlignTimestamp
    rw [hd]
    show (if d / 2 ≤ t - goTruncate t d then Except.ok (goTruncate t d + d)
      else Except.ok (goTruncate t d)) = _
    split <;> rfl

/-- C1: for every timestamp and every supported resolution, `floor`
truncates down to the grid (with `floor(t,r) ≤ t` and
`t - floor(t,r) < r`), `ceil` keeps an already-aligned value and
otherwise advances by one resolution unit, and `round` advances exactly
when the remainder is at least half the resolution duration. -/
theorem alignTimestamp_C1 (t : Int) (r : String)
    (hr : r ∈ (["1m", "5m", "1h"] : List String)) :
    ∃ d : Int, durationOf r = .ok d ∧ 0 < d ∧
      AlignTimestamp t r ("floor") = .ok (goTruncate t d) ∧
      goTruncate t d ≤ t ∧ t - goTruncate t d < d ∧
      AlignTimestamp t r ("ceil") =
        .ok (if goTruncate t d = t then goTruncate t d else goTruncate t d + d) ∧
      AlignTimestamp t r ("round") =
        .ok (if d / 2 ≤ t - goTruncate t d then goTruncate t d + d
          else goTruncate t d) := by
  simp only [List.mem_cons, List.not_mem_nil, or_false] at hr
  rcases hr with h | h | h <;> subst h
  · obtain ⟨h1, h2, h3⟩ :=
      alignTimestamp_eval t 60000000000 ("1m") rfl (by decide)
    exact ⟨60000000000, rfl, by decide, h1,
      goTruncate_le t _ (by decide), sub_goTruncate_lt t _ (by decide), h2, h3⟩
  · obtain ⟨h1, h2, h3⟩ :=
      alignTimestamp_eval t 300000000000 ("5m") rfl (by decide)
    exact ⟨300000000000, rfl, by decide, h1,
      goTruncate_le t _ (by decide), sub_goTruncate_lt t _ (by decide), h2, h3⟩
  · obtain ⟨h1, h2, h3⟩ :=
      alignTimestamp_eval t 3600000000000 ("1h") rfl (by decide)
    exact ⟨3600000000000, rfl, by decide, h1,
      goTruncate_le t _ (by decide), sub_goTruncate_lt t _ (by decide), h2, h3⟩

theorem alignTimestamp_C1_witness :
    (("1m") ∈ (["1m", "5m", "1h"] : List String)) ∧
    (∃ d : Int, durationOf ("1m") = .ok d ∧ 0 < d ∧
      AlignTimestamp 90000000000 ("1m") ("floor") =
        .ok (goTruncate 90000000000 d) ∧
      goTruncate 90000000000 d ≤ 90000000000 ∧
      90000000000 - goTruncate 90000000000 d < d ∧
      AlignTimestamp 90000000000 ("1m") ("ceil") =
        .ok (if goTruncate 90000000000 d = 90000000000 then
          goTruncate 90000000000 d else goTruncate 90000000000 d + d) ∧
      AlignTimestamp 90000000000 ("1m") ("round") =
        .ok (if d / 2 ≤ 90000000000 - goTruncate 90000000000 d then
          goTruncate 90000000000 d + d else goTruncate 90000000000 d)) :=
  ⟨by decide, alignTimestamp_C1 90000000000 ("1m") (by decide)⟩

/-- C10: for every status value outside the four recognized ones,
`UpdateRun` does not reject the value: it sends `FINISHED` as the status
while leaving the end time unset. -/
theorem updateRun_C10 (runID status : String) (now : Int)
    (h : status ∉ (["RUNNING", "FINISHED", "FAILED", "KILLED"] : List String)) :
    (UpdateRun runID status now).Status = "FINISHED" ∧
    (UpdateRun runID status now).EndTime = none := by
  simp only [List.mem_cons, List.mem_singleton, not_or] at h
  obtain ⟨h1, h2, h3, h4⟩ := h
  unfold UpdateRun
  constructor
  · split <;> simp_all
  · simp [h2, h3, h4]

theorem mem_of_getElemOpt {α : Type} {l : List α} {k : Nat} {a : α}
    (h : l[k]? = some a) : a ∈ l := by
  obtain ⟨hk, rfl⟩ := List.getElem?_eq_some.mp h
  exact List.getElem_mem hk

/-- The loop of `ProcessMetrics` decomposes its output into one chunk per
input point: each chunk is the field expansion of its point at the
timestamp the point was assigned, with the step computed from the number
of metrics emitted before the chunk. -/
theorem processLoop_chunks (config : TimeConfig) (base : Int) (nowAt : Nat → Int) :
    ∀ (points : List MetricPoint) (i : Nat) (acc l : List Metric),
    processLoop config base nowAt points i acc = .ok l →
    ∃ chunks : List (List Metric),
      l = acc ++ chunks.flatten ∧
      chunks.length = points.length ∧
      ∀ (k : Nat) (point : MetricPoint), points[k]? = some point →
        ∃ ts, pointTimestamp point config (nowAt (i + k)) = .ok ts ∧
          chunks[k]? = some (expandPoint point ts
            (pointStep point config base ts
              (acc.length + ((chunks.take k).flatten).length))) := by
  intro points
  induction points with
  | nil =>
    intro i acc l h
    simp only [processLoop, Except.ok.injEq] at h
    refine ⟨[], ?_, rfl, ?_⟩
    · simp [h]
    · intro k point hk
      simp at hk
  | cons p rest ih =>
    intro i acc l h
    rcases hts : pointTimestamp p config (nowAt i) with e | ts
    · rw [processLoop, hts] at h
      exact absurd h (by simp)
    · rw [processLoop, hts] at h
      obtain ⟨chunks, hl, hlen, hprop⟩ := ih (i + 1) _ l h
      refine ⟨expandPoint p ts (pointStep p config base ts acc.length) :: chunks,
        ?_, ?_, ?_⟩
      · rw [hl]
        simp
      · simp [hlen]
      · intro k point hk
        match k with
        | 0 =>
          simp only [List.getElem?_cons_zero, Option.some.injEq] at hk
          subst hk
          refine ⟨ts, ?_, ?_⟩
          · simpa using hts
          · simp
        | Nat.succ k =>
          simp only [List.getElem?_cons_succ] at hk
          obtain ⟨ts2, h1, h2⟩ := hprop k point hk
          refine ⟨ts2, ?_, ?_⟩
          · have : i + 1 + k = i + (k + 1) := by omega
            rw [this] at h1
            exact h1
          · simp only [List.getElem?_cons_succ]
            rw [h2]
            have harith :
                (acc ++ expandPoint p ts (pointStep p config base ts acc.length)).length +
                  ((chunks.take k).flatten).length =
                acc.length +
                  (((expandPoint p ts (pointStep p config base ts acc.length) ::
                    chunks).take (k + 1)).flatten).length := by
              simp [List.take_succ_cons]
              omega
            rw [harith]

theorem expandPoint_mem_ts_step (p : MetricPoint) (ts st : Int) :
    ∀ m ∈ expandPoint p ts st, m.Timestamp = ts ∧ m.Step = st := by
  intro m hm
  unfold expandPoint at hm
  by_cases h1 : p.ExecutionTime ≠ 0 <;> by_cases h2 : p.SuccessRate ≠ 0 <;>
    simp [h1, h2] at hm <;> aesop

theorem expandPoint_error_count (p : MetricPoint) (ts st : Int) :
    ({ Key := "error_count", Value := p.ErrorCount,
       Timestamp := ts, Step := st } : Metric) ∈ expandPoint p ts st := by
  unfold expandPoint
  simp

theorem expandPoint_execution_time (p : MetricPoint) (ts st : Int) :
    (∃ m ∈ expandPoint p ts st, m.Key = "execution_time") ↔
      p.ExecutionTime ≠ 0 := by
  unfold expandPoint
  by_cases h1 : p.ExecutionTime ≠ 0 <;> by_cases h2 : p.SuccessRate ≠ 0 <;>
    simp [h1, h2]

theorem expandPoint_success_rate (p : MetricPoint) (ts st : Int) :
    (∃ m ∈ expandPoint p ts st, m.Key = "success_rate") ↔
      p.SuccessRate ≠ 0 := by
  unfold expandPoint
  by_cases h1 : p.ExecutionTime ≠ 0 <;> by_cases h2 : p.SuccessRate ≠ 0 <;>
    simp [h1, h2]

theorem expandPoint_length (p : MetricPoint) (ts st : Int) :
    (expandPoint p ts st).length =
      (if p.ExecutionTime ≠ 0 then 1 else 0) +
      (if p.SuccessRate ≠ 0 then 1 else 0) + 1 := by
  unfold expandPoint
  by_cases h1 : p.ExecutionTime ≠ 0 <;> by_cases h2 : p.SuccessRate ≠ 0 <;>
    simp [h1, h2]

theorem expandPoint_ne_nil (p : MetricPoint) (ts st : Int) :
    expandPoint p ts st ≠ [] := by
  unfold expandPoint
  simp

/-- C2: every input point emits one normalized metric per populated scalar
field, all sharing one (timestamp, step) pair per point; `error_count` is
emitted for every point (zero included) while `execution_time` and
`success_rate` appear exactly when non-zero. -/
theorem processMetrics_C2 (metrics : List MetricPoint) (config : TimeConfig)
    (baseTime : Option Int) (now0 : Int) (nowAt : Nat → Int) (l : List Metric)
    (h : ProcessMetrics metrics config baseTime now0 nowAt = .ok l) :
    ∃ chunks : List (List Metric),
      l = chunks.flatten ∧ chunks.length = metrics.length ∧
      ∀ (k : Nat) (point : MetricPoint), metrics[k]? = some point →
        ∃ ch ts step, chunks[k]? = some ch ∧
          (∀ m ∈ ch, m.Timestamp = ts ∧ m.Step = step) ∧
          ({ Key := "error_count", Value := point.ErrorCount,
             Timestamp := ts, Step := step } : Metric) ∈ ch ∧
          ((∃ m ∈ ch, m.Key = "execution_time") ↔ point.ExecutionTime ≠ 0) ∧
          ((∃ m ∈ ch, m.Key = "success_rate") ↔ point.SuccessRate ≠ 0) ∧
          ch.length = (if point.ExecutionTime ≠ 0 then 1 else 0) +
            (if point.SuccessRate ≠ 0 then 1 else 0) + 1 := by
  obtain ⟨chunks, hl, hlen, hprop⟩ :=
    processLoop_chunks config (baseOf metrics baseTime now0) nowAt metrics 0 [] l h
  refine ⟨chunks, by simpa using hl, hlen, ?_⟩
  intro k point hk
  obtain ⟨ts, _, hch⟩ := hprop k point hk
  exact ⟨_, ts, _, hch, expandPoint_mem_ts_step point ts _,
    expandPoint_error_count point ts _, expandPoint_execution_time point ts _,
    expandPoint_success_rate point ts _, expandPoint_length point ts _⟩

/-- Steps of a chunked metric list whose k-th chunk carries the constant
step `n + (length of the previous chunks)` are bounded below by `n` and
non-decreasing. -/
theorem flatten_steps_pairwise :
    ∀ (chunks : List (List Metric)) (n : Nat),
    (∀ (k : Nat) (ch : List Metric), chunks[k]? = some ch →
      ∀ m ∈ ch, m.Step = (n : Int) + ((chunks.take k).flatten).length) →
    (∀ m ∈ chunks.flatten, (n : Int) ≤ m.Step) ∧
    List.Pairwise (fun a b : Metric => a.Step ≤ b.Step) chunks.flatten := by
  intro chunks
  induction chunks with
  | nil => intro n h; simp
  | cons c cs ih =>
    intro n h
    have h0 : ∀ m ∈ c, m.Step = (n : Int) := by
      intro m hm
      have := h 0 c (by simp) m hm
      simpa using this
    have htail : ∀ (k : Nat) (ch : List Metric), cs[k]? = some ch →
        ∀ m ∈ ch,
          m.Step = ((n + c.length : Nat) : Int) + ((cs.take k).flatten).length := by
      intro k ch hk m hm
      have := h (k + 1) ch (by simpa using hk) m hm
      rw [this]
      simp [List.take_succ_cons]
      ring
    obtain ⟨hlb, hpw⟩ := ih (n + c.length) htail
    constructor
    · intro m hm
      rw [List.flatten_cons, List.mem_append] at hm
      rcases hm with hm | hm
      · rw [h0 m hm]
      · have := hlb m hm
        omega
    · rw [List.flatten_cons, List.pairwise_append]
      refine ⟨?_, hpw, ?_⟩
      · refine List.pairwise_of_forall_mem_list ?_
        intro a ha b hb
        rw [h0 a ha, h0 b hb]
      · intro a ha b hb
        rw [h0 a ha]
        have := hlb b hb
        omega

/-- C3 counterexample: in `sequence` mode a point expanding to two
metrics makes the steps 0,0,2,2 — neither strictly increasing nor the
sequence 0,1,2,3. -/
theorem processMetrics_C3_counterexample :
    ProcessMetrics
      [{ Timestamp := none, Step := none, ExecutionTime := 1,
         SuccessRate := 0, ErrorCount := 0 },
       { Timestamp := none, Step := none, ExecutionTime := 1,
         SuccessRate := 0, ErrorCount := 0 }]
      { Resolution := "1m", Alignment := "floor", StepMode := "sequence" }
      none 0 zeroClock =
      .ok [{ Key := "execution_time", Value := 1, Timestamp := 0, Step := 0 },
           { Key := "error_count", Value := 0, Timestamp := 0, Step := 0 },
           { Key := "execution_time", Value := 1, Timestamp := 0, Step := 2 },
           { Key := "error_count", Value := 0, Timestamp := 0, Step := 2 }] ∧
    [{ Key := "execution_time", Value := 1, Timestamp := 0, Step := (0 : Int) },
     { Key := "error_count", Value := 0, Timestamp := 0, Step := 0 },
     { Key := "execution_time", Value := 1, Timestamp := 0, Step := 2 },
     { Key := "error_count", Value := 0, Timestamp := 0, Step := 2 }].map
        Metric.Step = [0, 0, 2, 2] ∧
    ¬ List.Pairwise (fun a b : Metric => a.Step < b.Step)
      [{ Key := "execution_time", Value := 1, Timestamp := 0, Step := (0 : Int) },
       { Key := "error_count", Value := 0, Timestamp := 0, Step := 0 },
       { Key := "execution_time", Value := 1, Timestamp := 0, Step := 2 },
       { Key := "error_count", Value := 0, Timestamp := 0, Step := 2 }] := by
  refine ⟨by rfl, by decide, by decide⟩

/-- C3 (amended): in `sequence` mode, when no point carries an explicit
step, the step of each point is the count of metrics already emitted when the
point is processed; every metric expanded from the same point shares that
step, and the step sequence across the output is non-decreasing (strictly
increasing across points, but repeated inside a multi-metric point). -/
theorem processMetrics_C3_amended (metrics : List MetricPoint)
    (config : TimeConfig) (baseTime : Option Int) (now0 : Int)
    (nowAt : Nat → Int) (l : List Metric)
    (hmode : config.StepMode = "sequence")
    (hstep : ∀ p ∈ metrics, p.Step = none)
    (h : ProcessMetrics metrics config baseTime now0 nowAt = .ok l) :
    ∃ chunks : List (List Metric),
      l = chunks.flatten ∧ chunks.length = metrics.length ∧
      (∀ (k : Nat) (point : MetricPoint), metrics[k]? = some point →
        ∃ ch, chunks[k]? = some ch ∧ ch ≠ [] ∧
          ∀ m ∈ ch, m.Step = (((chunks.take k).flatten).length : Int)) ∧
      List.Pairwise (fun a b : Metric => a.Step ≤ b.Step) l := by
  obtain ⟨chunks, hl, hlen, hprop⟩ :=
    processLoop_chunks config (baseOf metrics baseTime now0) nowAt metrics 0 [] l h
  have hl2 : l = chunks.flatten := by simpa using hl
  have hstep2 : ∀ (k : Nat) (ch : List Metric), chunks[k]? = some ch →
      ∀ m ∈ ch, m.Step = ((0 : Nat) : Int) + ((chunks.take k).flatten).length := by
    intro k ch hk m hm
    have hk2 : k < metrics.length := by
      have := (List.getElem?_eq_some.mp hk).1
      omega
    have hpoint : metrics[k]? = some metrics[k] :=
      List.getElem?_eq_some.mpr ⟨hk2, rfl⟩
    obtain ⟨ts, hts, hch⟩ := hprop k (metrics[k]) hpoint
    rw [hk] at hch
    obtain rfl := (Option.some.injEq _ _).mp hch
    have hmem := (expandPoint_mem_ts_step (metrics[k]) ts _ m hm).2
    rw [hmem]
    have hnone : (metrics[k]).Step = none :=
      hstep _ (mem_of_getElemOpt hpoint)
    simp [pointStep, hnone, hmode]
  refine ⟨chunks, hl2, hlen, ?_, ?_⟩
  · intro k point hk
    obtain ⟨ts, hts, hch⟩ := hprop k point hk
    refine ⟨_, hch, expandPoint_ne_nil _ _ _, ?_⟩
    intro m hm
    have := hstep2 k _ hch m hm
    simpa using this
  · rw [hl2]
    exact (flatten_steps_pairwise chunks 0 hstep2).2

/-- C7: a point carrying an explicit step has every metric it emits use
that step verbatim, for every step mode and alignment configuration. -/
theorem processMetrics_C7 (metrics : List MetricPoint) (config : TimeConfig)
    (baseTime : Option Int) (now0 : Int) (nowAt : Nat → Int) (l : List Metric)
    (h : ProcessMetrics metrics config baseTime now0 nowAt = .ok l) :
    ∃ chunks : List (List Metric),
      l = chunks.flatten ∧ chunks.length = metrics.length ∧
      ∀ (k : Nat) (point : MetricPoint) (s : Int), metrics[k]? = some point →
        point.Step = some s →
        ∃ ch, chunks[k]? = some ch ∧ ch ≠ [] ∧ ∀ m ∈ ch, m.Step = s := by
  obtain ⟨chunks, hl, hlen, hprop⟩ :=
    processLoop_chunks config (baseOf metrics baseTime now0) nowAt metrics 0 [] l h
  refine ⟨chunks, by simpa using hl, hlen, ?_⟩
  intro k point s hk hs
  obtain ⟨ts, hts, hch⟩ := hprop k point hk
  refine ⟨_, hch, expandPoint_ne_nil _ _ _, ?_⟩
  intro m hm
  have := (expandPoint_mem_ts_step point ts _ m hm).2
  rw [this]
  simp [pointStep, hs]

/-- An unsupported resolution or alignment makes `AlignTimestamp` fail on
every timestamp. -/
theorem alignTimestamp_invalid (t : Int) (r a : String)
    (hcfg : r ∉ (["1m", "5m", "1h"] : List String) ∨
      a ∉ (["floor", "ceil", "round"] : List String)) :
    ∃ e, AlignTimestamp t r a = .error e := by
  rcases hcfg with hr | ha
  · simp only [List.mem_cons, List.not_mem_nil, or_false, not_or] at hr
    have hd : durationOf r = .error ("unsupported resolution: " ++ r) := by
      unfold durationOf
      split <;> simp_all
    exact ⟨_, by unfold AlignTimestamp; rw [hd]⟩
  · simp only [List.mem_cons, List.not_mem_nil, or_false, not_or] at ha
    rcases hdur : durationOf r with e | d
    · exact ⟨e, by unfold AlignTimestamp; rw [hdur]⟩
    · refine ⟨"unsupported alignment: " ++ a, ?_⟩
      unfold AlignTimestamp
      rw [hdur]
      split <;> simp_all

/-- The per-point loop fails as soon as any remaining point carries an
explicit timestamp, when the configuration makes alignment fail. -/
theorem processLoop_error (config : TimeConfig) (base : Int) (nowAt : Nat → Int)
    (hcfg : ∀ t, ∃ e,
      AlignTimestamp t config.Resolution config.Alignment = .error e) :
    ∀ (points : List MetricPoint) (i : Nat) (acc : List Metric),
    (∃ p ∈ points, p.Timestamp ≠ none) →
    ∃ e, processLoop config base nowAt points i acc = .error e := by
  intro points
  induction points with
  | nil =>
    intro i acc h
    simp at h
  | cons p rest ih =>
    intro i acc h
    rcases hp : p.Timestamp with _ | t
    · obtain ⟨q, hq, hqts⟩ := h
      rcases List.mem_cons.mp hq with rfl | hq2
      · exact absurd hp hqts
      · have hts : pointTimestamp p config (nowAt i) = .ok (nowAt i) := by
          simp [pointTimestamp, hp]
        obtain ⟨e, he⟩ := ih (i + 1)
          (acc ++ expandPoint p (nowAt i)
            (pointStep p config base (nowAt i) acc.length)) ⟨q, hq2, hqts⟩
        exact ⟨e, by rw [processLoop, hts]; exact he⟩
    · obtain ⟨e, he⟩ := hcfg t
      have hts : pointTimestamp p config (nowAt i) = .error e := by
        simp [pointTimestamp, hp, he]
      exact ⟨e, by rw [processLoop, hts]⟩

/-- C6 counterexample: a batch whose points carry no explicit timestamp
never exercises the configuration check, so an unsupported resolution
still normalizes successfully and returns metrics. -/
theorem processMetrics_C6_counterexample :
    (("2m" : String) ∉ (["1m", "5m", "1h"] : List String)) ∧
    ProcessMetrics
      [{ Timestamp := none, Step := none, ExecutionTime := 0,
         SuccessRate := 0, ErrorCount := 5 }]
      { Resolution := "2m", Alignment := "floor", StepMode := "sequence" }
      none 0 zeroClock =
      .ok [{ Key := "error_count", Value := 5, Timestamp := 0, Step := 0 }] :=
  ⟨by decide, by rfl⟩

/-- C6 (amended): when the resolution or the alignment is unrecognized
and at least one point carries an explicit timestamp, normalization of
the whole batch fails with an error (the `Except.error` result carries no
normalized metrics, so no partial normalization is produced); a batch in
which no point has a timestamp never triggers the configuration check. -/
theorem processMetrics_C6_amended (metrics : List MetricPoint)
    (config : TimeConfig) (baseTime : Option Int) (now0 : Int)
    (nowAt : Nat → Int)
    (hcfg : config.Resolution ∉ (["1m", "5m", "1h"] : List String) ∨
      config.Alignment ∉ (["floor", "ceil", "round"] : List String))
    (hts : ∃ p ∈ metrics, p.Timestamp ≠ none) :
    ∃ e, ProcessMetrics metrics config baseTime now0 nowAt = .error e :=
  processLoop_error config (baseOf metrics baseTime now0) nowAt
    (fun t => alignTimestamp_invalid t _ _ hcfg) metrics 0 [] hts

theorem processMetrics_C2_witness :
    ∃ chunks : List (List Metric),
      [({ Key := "execution_time", Value := 3, Timestamp := 0, Step := 0 } : Metric),
       { Key := "error_count", Value := 7, Timestamp := 0, Step := 0 }] =
        chunks.flatten ∧
      chunks.length =
        [({ Timestamp := none, Step := none, ExecutionTime := 3,
            SuccessRate := 0, ErrorCount := 7 } : MetricPoint)].length ∧
      ∀ (k : Nat) (point : MetricPoint),
        [({ Timestamp := none, Step := none, ExecutionTime := 3,
            SuccessRate := 0, ErrorCount := 7 } : MetricPoint)][k]? = some point →
        ∃ ch ts step, chunks[k]? = some ch ∧
          (∀ m ∈ ch, m.Timestamp = ts ∧ m.Step = step) ∧
          ({ Key := "error_count", Value := point.ErrorCount,
             Timestamp := ts, Step := step } : Metric) ∈ ch ∧
          ((∃ m ∈ ch, m.Key = "execution_time") ↔ point.ExecutionTime ≠ 0) ∧
          ((∃ m ∈ ch, m.Key = "success_rate") ↔ point.SuccessRate ≠ 0) ∧
          ch.length = (if point.ExecutionTime ≠ 0 then 1 else 0) +
            (if point.SuccessRate ≠ 0 then 1 else 0) + 1 :=
  processMetrics_C2
    [{ Timestamp := none, Step := none, ExecutionTime := 3,
       SuccessRate := 0, ErrorCount := 7 }]
    { Resolution := "1m", Alignment := "floor", StepMode := "sequence" }
    none 0 zeroClock _ (by rfl)

theorem processMetrics_C3_amended_witness :
    ∃ chunks : List (List Metric),
      [({ Key := "execution_time", Value := 1, Timestamp := 0, Step := 0 } : Metric),
       { Key := "error_count", Value := 0, Timestamp := 0, Step := 0 },
       { Key := "execution_time", Value := 1, Timestamp := 0, Step := 2 },
       { Key := "error_count", Value := 0, Timestamp := 0, Step := 2 }] =
        chunks.flatten ∧
      chunks.length =
        [({ Timestamp := none, Step := none, ExecutionTime := 1,
            SuccessRate := 0, ErrorCount := 0 } : MetricPoint),
         { Timestamp := none, Step := none, ExecutionTime := 1,
           SuccessRate := 0, ErrorCount := 0 }].length ∧
      (∀ (k : Nat) (point : MetricPoint),
        [({ Timestamp := none, Step := none, ExecutionTime := 1,
            SuccessRate := 0, ErrorCount := 0 } : MetricPoint),
         { Timestamp := none, Step := none, ExecutionTime := 1,
           SuccessRate := 0, ErrorCount := 0 }][k]? = some point →
        ∃ ch, chunks[k]? = some ch ∧ ch ≠ [] ∧
          ∀ m ∈ ch, m.Step = (((chunks.take k).flatten).length : Int)) ∧
      List.Pairwise (fun a b : Metric => a.Step ≤ b.Step)
        [({ Key := "execution_time", Value := 1, Timestamp := 0, Step := 0 } : Metric),
         { Key := "error_count", Value := 0, Timestamp := 0, Step := 0 },
         { Key := "execution_time", Value := 1, Timestamp := 0, Step := 2 },
         { Key := "error_count", Value := 0, Timestamp := 0, Step := 2 }] :=
  processMetrics_C3_amended
    [{ Timestamp := none, Step := none, ExecutionTime := 1,
       SuccessRate := 0, ErrorCount := 0 },
     { Timestamp := none, Step := none, ExecutionTime := 1,
       SuccessRate := 0, ErrorCount := 0 }]
    { Resolution := "1m", Alignment := "floor", StepMode := "sequence" }
    none 0 zeroClock _ (by rfl) (by decide) (by rfl)

theorem processMetrics_C7_witness :
    ∃ chunks : List (List Metric),
      [({ Key := "execution_time", Value := 1, Timestamp := 0, Step := 42 } : Metric),
       { Key := "error_count", Value := 0, Timestamp := 0, Step := 42 }] =
        chunks.flatten ∧
      chunks.length =
        [({ Timestamp := none, Step := some 42, ExecutionTime := 1,
            SuccessRate := 0, ErrorCount := 0 } : MetricPoint)].length ∧
      ∀ (k : Nat) (point : MetricPoint) (s : Int),
        [({ Timestamp := none, Step := some 42, ExecutionTime := 1,
            SuccessRate := 0, ErrorCount := 0 } : MetricPoint)][k]? = some point →
        point.Step = some s →
        ∃ ch, chunks[k]? = some ch ∧ ch ≠ [] ∧ ∀ m ∈ ch, m.Step = s :=
  processMetrics_C7
    [{ Timestamp := none, Step := some 42, ExecutionTime := 1,
       SuccessRate := 0, ErrorCount := 0 }]
    { Resolution := "1m", Alignment := "floor", StepMode := "timestamp" }
    none 0 zeroClock _ (by rfl)

theorem processMetrics_C6_amended_witness :
    ∃ e, ProcessMetrics
      [{ Timestamp := some 30, Step := none, ExecutionTime := 0,
         SuccessRate := 0, ErrorCount := 0 }]
      { Resolution := "2m", Alignment := "floor", StepMode := "sequence" }
      none 0 zeroClock = .error e :=
  processMetrics_C6_amended
    [{ Timestamp := some 30, Step := none, ExecutionTime := 0,
       SuccessRate := 0, ErrorCount := 0 }]
    { Resolution := "2m", Alignment := "floor", StepMode := "sequence" }
    none 0 zeroClock (Or.inl (by decide)) (by decide)

theorem canon_contentType :
    canonicalMIMEHeaderKey ("Content-Type") = "Content-Type" := by decide

theorem canon_contentLength :
    canonicalMIMEHeaderKey ("Content-Length") = "Content-Length" := by decide

theorem canon_transferEncoding :
    canonicalMIMEHeaderKey ("Transfer-Encoding") = "Transfer-Encoding" := by decide

theorem canon_blobType :
    canonicalMIMEHeaderKey ("x-ms-blob-type") = "X-Ms-Blob-Type" := by decide

/-- Applying the custom headers of the credential with `Set` after the default
headers yields, at every key, the last custom header with that canonical
name when one exists, and the default value otherwise. -/
theorem foldl_headerSet_eval :
    ∀ (hs : List HTTPHeader) (h : HeaderMap) (q : String),
    (hs.foldl (fun h p => headerSet h p.Name p.Value) h) q =
      match lastCustomHeader hs q with
      | some v => some v
      | none => h q := by
  intro hs
  induction hs with
  | nil => intro h q; rfl
  | cons p rest ih =>
    intro h q
    show (rest.foldl _ (headerSet h p.Name p.Value)) q = _
    rw [ih]
    show _ = (match (match lastCustomHeader rest q with
      | some v => some v
      | none =>
        if q = canonicalMIMEHeaderKey p.Name then some p.Value else none) with
      | some v => some v
      | none => h q)
    cases hres : lastCustomHeader rest q with
    | some v => rfl
    | none =>
      show headerSet h p.Name p.Value q = _
      unfold headerSet
      by_cases hq : q = canonicalMIMEHeaderKey p.Name <;> simp [hq]

theorem signedURIDefaultHeaders_contentType (credentialType : String)
    (contentLength : Int) :
    signedURIDefaultHeaders credentialType contentLength ("Content-Type") =
      some ("application/octet-stream") := by
  unfold signedURIDefaultHeaders
  split <;>
    simp [headerSet, headerDel, emptyHeader, canon_contentType,
      canon_transferEncoding, canon_blobType]

theorem signedURIDefaultHeaders_contentLength (credentialType : String)
    (contentLength : Int) :
    signedURIDefaultHeaders credentialType contentLength ("Content-Length") =
      some (toString contentLength) := by
  unfold signedURIDefaultHeaders
  split <;>
    simp [headerSet, headerDel, emptyHeader, canon_contentType,
      canon_transferEncoding, canon_contentLength, canon_blobType]

/-- C5: the signed-URI PUT request carries an explicit content length and
the credential-type default headers (octet-stream content type for every
type, the unrecognized-type fallback included; additionally the Azure
block-blob marker), and every broker-supplied custom header is applied
with `Set` after the defaults, so at each key the last custom header with
that canonical name overrides the default and keys named by no custom
header keep their default — custom headers can override but never remove
the defaults, and construction never fails. -/
theorem createSignedURIRequest_C5 (credential : ArtifactCredentialInfo)
    (contentLength : Int) :
    (createSignedURIRequest credential contentLength).Method = "PUT" ∧
    (createSignedURIRequest credential contentLength).ContentLength =
      contentLength ∧
    (∀ q, (createSignedURIRequest credential contentLength).Headers q =
      match lastCustomHeader credential.Headers q with
      | some v => some v
      | none =>
        signedURIDefaultHeaders credential.CredentialType contentLength q) ∧
    signedURIDefaultHeaders credential.CredentialType contentLength
      ("Content-Type") = some ("application/octet-stream") ∧
    signedURIDefaultHeaders credential.CredentialType contentLength
      ("Content-Length") = some (toString contentLength) ∧
    signedURIDefaultHeaders ("AZURE_SAS_URI") contentLength
      ("X-Ms-Blob-Type") = some ("BlockBlob") := by
  refine ⟨rfl, rfl, ?_, signedURIDefaultHeaders_contentType _ _,
    signedURIDefaultHeaders_contentLength _ _, ?_⟩
  · intro q
    exact foldl_headerSet_eval credential.Headers _ q
  · unfold signedURIDefaultHeaders
    simp [headerSet, headerDel, emptyHeader, canon_blobType]

theorem strHasPre_append (p r : List Char) : strHasPre p (p ++ r) = true := by
  induction p with
  | nil => rfl
  | cons c cs ih => simp [strHasPre, ih]

theorem strHasPre_exists (p : List Char) :
    ∀ s : List Char, strHasPre p s = true → ∃ r, s = p ++ r := by
  induction p with
  | nil => exact fun s _ => ⟨s, rfl⟩
  | cons c cs ih =>
    intro s h
    match s with
    | [] => simp [strHasPre] at h
    | d :: ds =>
      rw [strHasPre] at h
      by_cases hc : c = d
      · rw [if_pos hc] at h
        obtain ⟨r, hr⟩ := ih ds h
        exact ⟨r, by rw [hr, hc]; rfl⟩
      · rw [if_neg hc] at h
        exact absurd h (by simp)

theorem goTrimPre_append (p r : List Char) : goTrimPre p (p ++ r) = r := by
  unfold goTrimPre
  rw [strHasPre_append]
  simp

theorem splitOnSlash_ne_nil : ∀ s : List Char, splitOnSlash s ≠ [] := by
  intro s
  induction s with
  | nil => simp [splitOnSlash]
  | cons c rest ih =>
    rw [splitOnSlash]
    split
    · simp
    · split
      · simp
      · simp

theorem splitOnSlash_append (a b : List Char) (ha : '/' ∉ a) :
    splitOnSlash (a ++ '/' :: b) = a :: splitOnSlash b := by
  induction a with
  | nil => simp [splitOnSlash]
  | cons c cs ih =>
    simp only [List.mem_cons, not_or] at ha
    obtain ⟨hc, ha2⟩ := ha
    have hc2 : ¬ c = '/' := fun h => hc h.symm
    rw [List.cons_append, splitOnSlash, if_neg hc2, ih ha2]

/-- C8: for a direct-store artifact URI of the form
`mlflow-artifacts:/experimentID/runID/...` (segments free of slashes, a
non-empty experiment ID), identifier extraction tolerates the leading
empty path segment without misaligning later segments: it returns
(experimentID, runID), the same pair the URI yields written without the
leading empty segment. -/
theorem extractIDs_C8 (exp runid tail : List Char)
    (hexp : '/' ∉ exp) (hrun : '/' ∉ runid) (hne : exp ≠ []) :
    extractIDsFromArtifactURI
      (("mlflow-artifacts:").toList ++
        ('/' :: (exp ++ ('/' :: (runid ++ ('/' :: tail)))))) =
      .ok (exp, runid) ∧
    extractIDsFromArtifactURI
      (("mlflow-artifacts:").toList ++
        (exp ++ ('/' :: (runid ++ ('/' :: tail))))) =
      .ok (exp, runid) := by
  obtain ⟨t0, ts, hT⟩ : ∃ t0 ts, splitOnSlash tail = t0 :: ts := by
    rcases h : splitOnSlash tail with _ | ⟨t0, ts⟩
    · exact absurd h (splitOnSlash_ne_nil tail)
    · exact ⟨t0, ts, rfl⟩
  have hsplit2 : splitOnSlash (runid ++ ('/' :: tail)) = runid :: t0 :: ts := by
    rw [splitOnSlash_append runid tail hrun, hT]
  have hsplit1 : splitOnSlash (exp ++ ('/' :: (runid ++ ('/' :: tail)))) =
      exp :: runid :: t0 :: ts := by
    rw [splitOnSlash_append exp _ hexp, hsplit2]
  constructor
  · rw [extractIDsFromArtifactURI]
    rw [goTrimPre_append]
    rw [show splitOnSlash ('/' :: (exp ++ ('/' :: (runid ++ ('/' :: tail))))) =
      ([] : List Char) :: exp :: runid :: t0 :: ts from by
        rw [splitOnSlash, if_pos rfl, hsplit1]]
    simp only [List.length_cons, List.headD_cons, List.drop_succ_cons,
      List.drop_zero]
    split
    next h => exact absurd h (by omega)
    next h =>
      split
      next h2 =>
        split
        next h3 => exact absurd h3 (by simp only [List.length_cons]; omega)
        next h3 => simp
      next h2 => exact absurd ⟨trivial, by omega⟩ h2
  · rw [extractIDsFromArtifactURI]
    rw [goTrimPre_append]
    rw [hsplit1]
    simp only [List.length_cons, List.headD_cons, List.drop_succ_cons,
      List.drop_zero]
    split
    next h => exact absurd h (by omega)
    next h =>
      split
      next h2 => exact absurd h2.1 hne
      next h2 =>
        split
        next h3 => exact absurd h3 (by simp only [List.length_cons]; omega)
        next h3 => simp

theorem extractIDs_C8_witness :
    ('/' ∉ ("0").toList) ∧ ('/' ∉ ("47485d6a").toList) ∧
    (("0").toList ≠ []) ∧
    (extractIDsFromArtifactURI
      (("mlflow-artifacts:").toList ++
        ('/' :: (("0").toList ++
          ('/' :: (("47485d6a").toList ++ ('/' :: ("artifacts").toList)))))) =
      .ok (("0").toList, ("47485d6a").toList) ∧
    extractIDsFromArtifactURI
      (("mlflow-artifacts:").toList ++
        (("0").toList ++
          ('/' :: (("47485d6a").toList ++ ('/' :: ("artifacts").toList))))) =
      .ok (("0").toList, ("47485d6a").toList)) :=
  ⟨by decide, by decide, by decide,
    extractIDs_C8 (("0").toList) (("47485d6a").toList) (("artifacts").toList)
      (by decide) (by decide) (by decide)⟩

/-- C9: an artifact root under `dbfs:/` but outside the
`dbfs:/databricks/mlflow-tracking/` namespace is routed to the DBFS
uploader (not rejected as an unsupported scheme), and the upload then
fails with the invalid-DBFS-URI-format error before any credential
request or byte transfer is attempted (the effect trace is empty). -/
theorem uploadToDBFS_C9 (artifactURI : List Char)
    (h1 : strHasPre (("dbfs:/").toList) artifactURI = true)
    (h2 : strHasPre dbfsTrackingPre artifactURI = false) :
    uploadToStorage artifactURI = .dbfs ∧
    ∀ (getCreds : Str → List Str → Except String (List ArtifactCredentialInfo))
      (send : ArtifactCredentialInfo → Except String Unit) (artifactPath : Str),
      (uploadToDBFS artifactURI getCreds send artifactPath).1 = [] ∧
      (uploadToDBFS artifactURI getCreds send artifactPath).2 =
        .error ("failed to extract run ID from DBFS URI: " ++
          "invalid DBFS artifact URI format") := by
  have hextract : extractRunIDFromDBFSURI artifactURI =
      .error ("invalid DBFS artifact URI format") := by
    rw [extractRunIDFromDBFSURI, h2]
    simp
  constructor
  · obtain ⟨r, rfl⟩ := strHasPre_exists (("dbfs:/").toList) artifactURI h1
    rw [uploadToStorage]
    rw [if_neg (by
      show ¬ (strHasPre (("mlflow-artifacts:/").toList)
        (("dbfs:/").toList ++ r) = true)
      simp [strHasPre])]
    rw [if_pos (strHasPre_append (("dbfs:/").toList) r)]
  · intro getCreds send artifactPath
    rw [uploadToDBFS, hextract]
    exact ⟨rfl, rfl⟩

theorem uploadToDBFS_C9_witness :
    (strHasPre (("dbfs:/").toList) (("dbfs:/foo/bar").toList) = true) ∧
    (strHasPre dbfsTrackingPre (("dbfs:/foo/bar").toList) = false) ∧
    (uploadToStorage (("dbfs:/foo/bar").toList) = .dbfs ∧
      (uploadToDBFS (("dbfs:/foo/bar").toList)
        (fun _ _ => .ok []) (fun _ => .ok ()) (("model.pkl").toList)).1 = [] ∧
      (uploadToDBFS (("dbfs:/foo/bar").toList)
        (fun _ _ => .ok []) (fun _ => .ok ()) (("model.pkl").toList)).2 =
        .error ("failed to extract run ID from DBFS URI: " ++
          "invalid DBFS artifact URI format")) :=
  ⟨by decide, by decide,
    (uploadToDBFS_C9 (("dbfs:/foo/bar").toList) (by decide) (by decide)).1,
    ((uploadToDBFS_C9 (("dbfs:/foo/bar").toList) (by decide) (by decide)).2
      (fun _ _ => .ok []) (fun _ => .ok ()) (("model.pkl").toList)).1,
    ((uploadToDBFS_C9 (("dbfs:/foo/bar").toList) (by decide) (by decide)).2
      (fun _ _ => .ok []) (fun _ => .ok ()) (("model.pkl").toList)).2⟩

/-- The per-file loop aggregates across every file, independent of
earlier failures: the final success count adds the number of successful
files, and the error list appends one message per failing file. -/
theorem logArtifact_foldl (statExists : Str → Bool)
    (upload : Str → Str → Option String) :
    ∀ (files : List Str) (acc : Nat × List String),
    files.foldl (logArtifactStep ([] : List Char) statExists upload) acc =
      (acc.1 + files.countP (fileUploadOK statExists upload),
       acc.2 ++ files.filterMap (fileErrMsg statExists upload)) := by
  intro files
  induction files with
  | nil =>
    intro acc
    simp
  | cons f rest ih =>
    intro acc
    show rest.foldl _ (logArtifactStep ([] : List Char) statExists upload acc f) = _
    rw [ih]
    unfold logArtifactStep fileUploadOK fileErrMsg
    by_cases he : statExists f
    · rcases hu : upload f (filepathBase f) with _ | e
      · simp [he, hu, List.countP_cons, List.filterMap_cons, fileUploadOK,
          fileErrMsg]
        omega
      · simp [he, hu, List.countP_cons, List.filterMap_cons, fileUploadOK,
          fileErrMsg]
    · simp [he, List.countP_cons, List.filterMap_cons, fileUploadOK, fileErrMsg]

/-- C4: in a multi-file upload each file is handled independently — a
missing file or a failed upload contributes an error message and does not
abort the remaining files; the handler returns the aggregated success
count with the per-file error list, and fails overall exactly when every
file failed. -/
theorem logArtifact_C4 (files : List Str) (statExists : Str → Bool)
    (upload : Str → Str → Option String) (hne : files ≠ []) :
    logArtifact files ([] : List Char) statExists upload =
      if files.countP (fileUploadOK statExists upload) = 0 then
        .error ("failed to upload any artifacts")
      else
        .ok (files.countP (fileUploadOK statExists upload),
          files.filterMap (fileErrMsg statExists upload)) := by
  rw [logArtifact]
  rw [if_neg (by simp [List.length_eq_zero, hne])]
  rw [if_neg (by simp)]
  rw [logArtifact_foldl statExists upload files (0, [])]
  simp

theorem logArtifact_C4_witness :
    ([("fileA").toList, ("fileB").toList, ("fileC").toList] ≠
      ([] : List Str)) ∧
    logArtifact [("fileA").toList, ("fileB").toList, ("fileC").toList]
      ([] : List Char)
      (fun f => decide (f ≠ ("fileB").toList)) (fun _ _ => none) =
      .ok (2, [("File not found: fileB")]) :=
  ⟨by decide,
    (logArtifact_C4 [("fileA").toList, ("fileB").toList, ("fileC").toList]
      (fun f => decide (f ≠ ("fileB").toList)) (fun _ _ => none)
      (by decide)).trans (by rfl)⟩

theorem updateRun_C10_witness :
    (("CANCELLED" : String) ∉
      (["RUNNING", "FINISHED", "FAILED", "KILLED"] : List String)) ∧
    ((UpdateRun ("run-1") ("CANCELLED") 1234).Status = "FINISHED" ∧
     (UpdateRun ("run-1") ("CANCELLED") 1234).EndTime = none) :=
  ⟨by decide, updateRun_C10 ("run-1") ("CANCELLED") 1234 (by decide)⟩

end MlflowCli
